import Mathlib

/-!
Verification of the ZIP-code deidentification tool.

The definitions below are a shallow embedding of `deidentify_zipcode.py`:

* `deidentify_zipcode` embeds the pure policy function `deidentify_zipcode`
  (values are modelled as `List Char`, the characters of the Python string);
* `resolveColumns` embeds the column-resolution loop of `deidentify_csv`;
* `deidentify_csv` embeds the streaming row processor of `deidentify_csv`,
  with the CSV reader/writer abstracted to a list of association-list rows
  (the spec treats file I/O as an external row-stream collaborator).
-/

/-- Whitespace as stripped by Python `str.strip()` (ASCII whitespace). -/
def isSpace (c : Char) : Bool :=
  c = ' ' || c = '\t' || c = '\n' || c = '\r' || c = '\x0b' || c = '\x0c'

/-- Model of Python `str.strip()`: drop leading and trailing whitespace. -/
def pyStrip (l : List Char) : List Char :=
  ((l.dropWhile isSpace).reverse.dropWhile isSpace).reverse

/-- The three precision modes accepted by the CLI (`choices=['2','3','smart']`). -/
inductive Precision where
  | two
  | three
  | smart
deriving DecidableEq

/-- `SPARSE_ZIP_PREFIXES`: sparsely populated 3-digit ZIP prefixes
(population < 20,000, 2010 Census), verbatim from the source. -/
def SPARSE_ZIP_PREFIXES : List (List Char) :=
  [['0', '3', '6'], ['0', '5', '9'], ['1', '0', '2'], ['2', '0', '3'],
   ['2', '0', '5'], ['3', '6', '9'], ['5', '5', '6'], ['6', '9', '2'],
   ['8', '2', '1'], ['8', '2', '3'], ['8', '7', '8'], ['8', '7', '9'],
   ['8', '8', '4'], ['8', '9', '3']]

/-- `len(digits) >= 3 and digits[:3] in SPARSE_ZIP_PREFIXES`:
the sparse-area test applied to the extracted digit string. -/
def sparse3 (digits : List Char) : Prop :=
  3 ≤ digits.length ∧ digits.take 3 ∈ SPARSE_ZIP_PREFIXES

instance (digits : List Char) : Decidable (sparse3 digits) := by
  unfold sparse3; infer_instance

/-- The precision requested before clamping: `2`, `3`, or the smart choice
(`2` on a sparse prefix, else `3`), source lines 62-69. -/
def pre_precision (precision : Precision) (digits : List Char) : Nat :=
  match precision with
  | Precision.smart => if sparse3 digits then 2 else 3
  | Precision.two => 2
  | Precision.three => 3

/-- `if len(digits) < actual_precision: actual_precision = len(digits)`
(source lines 71-73): clamp the requested precision to the available digits. -/
def actual_precision (precision : Precision) (digits : List Char) : Nat :=
  if digits.length < pre_precision precision digits then digits.length
  else pre_precision precision digits

/-- `kept_digits + fill_char * fill_count` (source lines 76-79):
keep the first `k` digits and pad to 5 characters with the fill character. -/
def maskZip (digits : List Char) (k : Nat) (fill_char : Char) : List Char :=
  digits.take k ++ List.replicate (5 - k) fill_char

/-- Embedding of `deidentify_zipcode(zipcode, precision, fill_char,
redaction_value)` (source lines 22-79).  The input value is the character
list of the Python string.  Branches, in source order:
`if not zipcode`, the `len(digits) < 2` pass-through, the Safe-Harbor
redaction check (only the `precision == '3'` arm returns; the `'2'` arm is
a `pass`), and the masking of the kept digits. -/
def deidentify_zipcode (zipcode : List Char) (precision : Precision)
    (fill_char : Char) (redaction_value : List Char) : List Char :=
  if zipcode = [] then zipcode
  else if ((pyStrip zipcode).filter Char.isDigit).length < 2 then pyStrip zipcode
  else if precision = Precision.three ∧ sparse3 ((pyStrip zipcode).filter Char.isDigit) then
    redaction_value
  else
    maskZip ((pyStrip zipcode).filter Char.isDigit)
      (actual_precision precision ((pyStrip zipcode).filter Char.isDigit)) fill_char

/-- Lifting to absent values: Python `None` is falsy, so
`if not zipcode: return zipcode` returns `None` unchanged. -/
def deidentify_zipcode_opt (zipcode : Option (List Char)) (precision : Precision)
    (fill_char : Char) (redaction_value : List Char) : Option (List Char) :=
  match zipcode with
  | none => none
  | some s => some (deidentify_zipcode s precision fill_char redaction_value)

/-- `deidentify_zipcode` acting on Lean strings (used by the CSV layer). -/
def deidentify_zipcode_str (zipcode : String) (precision : Precision)
    (fill_char : Char) (redaction_value : String) : String :=
  String.mk (deidentify_zipcode zipcode.toList precision fill_char redaction_value.toList)

/-- A user-supplied column reference: a Python value that is either an
explicit `int` or a string token (spec §3 `ColumnReference`). -/
inductive ColRef where
  | idx (i : Int)
  | name (s : String)
deriving DecidableEq

/-- The non-fatal warnings printed by the column-resolution loop. -/
inductive Warning where
  | indexOutOfRange (i : Int) (maxIdx : Int)
  | columnNotFound (s : String)
deriving DecidableEq

/-- Python `str.isdigit()`: nonempty and all characters are digits. -/
def pyIsDigit (s : String) : Bool :=
  !s.toList.isEmpty && s.toList.all Char.isDigit

/-- Python `int(...)` on an all-digit string (decimal value). -/
def pyInt (s : String) : Nat :=
  s.toList.foldl (fun n c => 10 * n + (c.toNat - Char.toNat '0')) 0

/-- Embedding of the column-resolution loop of `deidentify_csv`
(source lines 103-123).  Returns the resolved header names (in loop order,
appended as the source appends to `columns_to_process`) together with the
warnings printed for skipped references. -/
def resolveColumns (refs : List ColRef) (fieldnames : List String) :
    List String × List Warning :=
  match refs with
  | [] => ([], [])
  | col :: rest =>
    let step : List String × List Warning :=
      match col with
      | ColRef.idx i =>
        -- Explicit integer type - treat as index (`0 <= col < len(fieldnames)`)
        if 0 ≤ i ∧ i.toNat < fieldnames.length then ([fieldnames.getD i.toNat ""], [])
        else ([], [Warning.indexOutOfRange i ((fieldnames.length : Int) - 1)])
      | ColRef.name s =>
        -- String matches a column name - use it
        if s ∈ fieldnames then ([s], [])
        -- String of digits - try as index
        else if pyIsDigit s then
          if pyInt s < fieldnames.length then ([fieldnames.getD (pyInt s) ""], [])
          else ([], [Warning.indexOutOfRange (pyInt s) ((fieldnames.length : Int) - 1)])
        -- String not found in headers
        else ([], [Warning.columnNotFound s])
    let restR := resolveColumns rest fieldnames
    (step.1 ++ restR.1, step.2 ++ restR.2)

/-- First-match lookup in an association-list row (the model of Python
`col in row` / `row[col]` on the dict produced by the CSV reader). -/
def lookupField : List (String × String) → String → Option String
  | [], _ => none
  | kv :: rest, k => if kv.1 = k then some kv.2 else lookupField rest k

/-- `row[col] = value`: replace the value stored at an existing key,
leaving every other pair untouched. -/
def updateField (row : List (String × String)) (key : String) (v : String) :
    List (String × String) :=
  row.map (fun kv => if kv.1 = key then (key, v) else kv)

/-- The per-row loop of `deidentify_csv` (source lines 136-141): for each
resolved column present in the row, deidentify its value in place; the
second component counts results equal to the redaction value. -/
def processRow (cols : List String) (precision : Precision) (fill_char : Char)
    (redaction_value : String) (row : List (String × String)) :
    List (String × String) × Nat :=
  match cols with
  | [] => (row, 0)
  | col :: rest =>
    match lookupField row col with
    | some v =>
      let d := deidentify_zipcode_str v precision fill_char redaction_value
      let res := processRow rest precision fill_char redaction_value (updateField row col d)
      (res.1, (if d = redaction_value then 1 else 0) + res.2)
    | none => processRow rest precision fill_char redaction_value row

/-- The result of a successful `deidentify_csv` run: the written header,
the written rows (in write order), and the reported counters. -/
structure CsvOutput where
  fieldnames : List String
  rows : List (List (String × String))
  row_count : Nat
  redaction_count : Nat
deriving DecidableEq

deriving instance DecidableEq for Except

/-- Embedding of `deidentify_csv` (source lines 82-150), with the CSV
reader/writer abstracted to lists: the input is the header list plus the
data rows as key-to-value records.  `Except.error` models the raised
`ValueError`, in which case no output file has been opened or written
(both raises happen before `open(output_file, 'w')`). -/
def deidentify_csv (fieldnames : List String) (rows : List (List (String × String)))
    (zipcode_columns : List ColRef) (precision : Precision) (fill_char : Char)
    (redaction_value : String) : Except String CsvOutput :=
  if fieldnames.isEmpty then Except.error "CSV file appears to be empty or malformed"
  else
    let columns_to_process := (resolveColumns zipcode_columns fieldnames).1
    if columns_to_process.isEmpty then Except.error "No valid ZIP code columns found"
    else
      let processed := rows.map (processRow columns_to_process precision fill_char redaction_value)
      Except.ok ⟨fieldnames, processed.map Prod.fst, rows.length, (processed.map Prod.snd).sum⟩

/-! ## Helper lemmas -/

theorem isSpace_eq_false_of_isDigit {c : Char} (h : c.isDigit = true) :
    isSpace c = false := by
  cases hs : isSpace c with
  | false => rfl
  | true =>
    exfalso
    simp only [isSpace, Bool.or_eq_true, decide_eq_true_eq] at hs
    rcases hs with ((((h1 | h1) | h1) | h1) | h1) | h1 <;> subst h1 <;>
      exact absurd h (by decide)

theorem dropWhile_dropWhile {α : Type} (p : α → Bool) (l : List α) :
    List.dropWhile p (List.dropWhile p l) = List.dropWhile p l := by
  induction l with
  | nil => rfl
  | cons x t ih =>
    rw [List.dropWhile_cons]
    by_cases h : p x = true
    · rw [if_pos h]; exact ih
    · rw [if_neg h, List.dropWhile_cons, if_neg h]

theorem dropWhile_head_false {α : Type} {p : α → Bool} {l t : List α} {x : α}
    (h : List.dropWhile p l = x :: t) : p x = false := by
  induction l with
  | nil => simp [List.dropWhile] at h
  | cons a l ih =>
    rw [List.dropWhile_cons] at h
    by_cases ha : p a = true
    · rw [if_pos ha] at h; exact ih h
    · rw [if_neg ha] at h
      injection h with h1 _
      subst h1
      cases hpa : p a with
      | false => rfl
      | true => exact absurd hpa ha

theorem dropWhile_getLast? {α : Type} {p : α → Bool} {l : List α}
    (h : List.dropWhile p l ≠ []) :
    (List.dropWhile p l).getLast? = l.getLast? := by
  induction l with
  | nil => simp [List.dropWhile] at h
  | cons a l ih =>
    rw [List.dropWhile_cons] at h ⊢
    by_cases ha : p a = true
    · rw [if_pos ha] at h ⊢
      have hl : l ≠ [] := by
        intro e; subst e; simp [List.dropWhile] at h
      rw [ih h]
      cases l with
      | nil => exact absurd rfl hl
      | cons b t => rw [List.getLast?_cons_cons]
    · rw [if_neg ha]

theorem dropWhile_eq_self_of {α : Type} {p : α → Bool} {l : List α}
    (h : ∀ c ∈ l, p c = false) : List.dropWhile p l = l := by
  cases l with
  | nil => rfl
  | cons a t =>
    rw [List.dropWhile_cons, if_neg]
    simp [h a (List.mem_cons_self a t)]

/-- `pyStrip` does nothing on a list without whitespace characters. -/
theorem pyStrip_eq_self_of {l : List Char} (h : ∀ c ∈ l, isSpace c = false) :
    pyStrip l = l := by
  unfold pyStrip
  rw [dropWhile_eq_self_of h, dropWhile_eq_self_of, List.reverse_reverse]
  intro c hc
  exact h c (List.mem_reverse.mp hc)

/-- Stripping whitespace is idempotent. -/
theorem pyStrip_idem (l : List Char) : pyStrip (pyStrip l) = pyStrip l := by
  have key : List.dropWhile isSpace (pyStrip l) = pyStrip l := by
    unfold pyStrip
    cases hbr : (List.dropWhile isSpace (List.dropWhile isSpace l).reverse).reverse with
    | nil => rfl
    | cons x t =>
      have hb : List.dropWhile isSpace (List.dropWhile isSpace l).reverse ≠ [] := by
        intro e; rw [e] at hbr; exact List.noConfusion hbr
      have ha : List.dropWhile isSpace l ≠ [] := by
        intro e; rw [e] at hb; exact hb rfl
      obtain ⟨y, t', hy⟩ : ∃ y t', List.dropWhile isSpace l = y :: t' := by
        cases hA : List.dropWhile isSpace l with
        | nil => exact absurd hA ha
        | cons y t' => exact ⟨y, t', rfl⟩
      have hxy : x = y := by
        have e1 : (List.dropWhile isSpace (List.dropWhile isSpace l).reverse).reverse.head? =
            some x := by rw [hbr]; rfl
        rw [List.head?_reverse, dropWhile_getLast? hb, List.getLast?_reverse, hy] at e1
        simp only [List.head?] at e1
        exact (Option.some.injEq _ _ ▸ e1).symm
      have hxs : isSpace x = false := by
        rw [hxy]; exact dropWhile_head_false hy
      rw [List.dropWhile_cons, hxs]
      simp
  calc pyStrip (pyStrip l)
      = ((List.dropWhile isSpace (pyStrip l)).reverse.dropWhile isSpace).reverse := rfl
    _ = ((pyStrip l).reverse.dropWhile isSpace).reverse := by rw [key]
    _ = pyStrip l := by
        unfold pyStrip
        rw [List.reverse_reverse, dropWhile_dropWhile]

/-- No entry of the sparsity table ends in the digit `'0'`
(so a re-masked 2-digit value can never look sparse). -/
theorem third_zero_not_sparse (a b : Char) : [a, b, '0'] ∉ SPARSE_ZIP_PREFIXES := by
  intro h
  simp only [SPARSE_ZIP_PREFIXES, List.mem_cons, List.not_mem_nil, or_false] at h
  rcases h with h | h | h | h | h | h | h | h | h | h | h | h | h | h <;>
    (injection h with h1 h2; injection h2 with h3 h4; injection h4 with h5 h6;
     exact absurd h5 (by decide))

/-- Branch lemma: the falsy pass-through `if not zipcode: return zipcode`. -/
theorem deid_empty (p : Precision) (f : Char) (r : List Char) :
    deidentify_zipcode [] p f r = [] := rfl

/-- Branch lemma: fewer than 2 digits returns the stripped value. -/
theorem deid_short {z : List Char} (hz : z ≠ [])
    (hlen : ((pyStrip z).filter Char.isDigit).length < 2)
    (p : Precision) (f : Char) (r : List Char) :
    deidentify_zipcode z p f r = pyStrip z := by
  unfold deidentify_zipcode
  rw [if_neg hz, if_pos hlen]

/-- Branch lemma: fixed 3-digit precision on a sparse prefix redacts. -/
theorem deid_redact {z : List Char} (hz : z ≠ [])
    (hlen : ¬ ((pyStrip z).filter Char.isDigit).length < 2)
    (hsp : sparse3 ((pyStrip z).filter Char.isDigit)) (f : Char) (r : List Char) :
    deidentify_zipcode z Precision.three f r = r := by
  unfold deidentify_zipcode
  rw [if_neg hz, if_neg hlen, if_pos ⟨rfl, hsp⟩]

/-- Branch lemma: the masking branch. -/
theorem deid_mask {z : List Char} {p : Precision} (hz : z ≠ [])
    (hlen : ¬ ((pyStrip z).filter Char.isDigit).length < 2)
    (hred : ¬ (p = Precision.three ∧ sparse3 ((pyStrip z).filter Char.isDigit)))
    (f : Char) (r : List Char) :
    deidentify_zipcode z p f r =
      maskZip ((pyStrip z).filter Char.isDigit)
        (actual_precision p ((pyStrip z).filter Char.isDigit)) f := by
  unfold deidentify_zipcode
  rw [if_neg hz, if_neg hlen, if_neg hred]

/-- A 2-digit mask padded with zeros is a fixed point of every mode. -/
theorem mask_fix_two_zero (c1 c2 : Char) (h1 : c1.isDigit = true)
    (h2 : c2.isDigit = true) (p : Precision) (r : List Char) :
    deidentify_zipcode [c1, c2, '0', '0', '0'] p '0' r = [c1, c2, '0', '0', '0'] := by
  have hmem : ∀ c ∈ [c1, c2, '0', '0', '0'], c.isDigit = true := by
    intro c hc
    simp only [List.mem_cons, List.not_mem_nil, or_false] at hc
    rcases hc with rfl | rfl | rfl | rfl | rfl
    · exact h1
    · exact h2
    all_goals decide
  have hstrip : pyStrip [c1, c2, '0', '0', '0'] = [c1, c2, '0', '0', '0'] :=
    pyStrip_eq_self_of (fun c hc => isSpace_eq_false_of_isDigit (hmem c hc))
  have hd : (pyStrip [c1, c2, '0', '0', '0']).filter Char.isDigit =
      [c1, c2, '0', '0', '0'] := by
    rw [hstrip]; exact List.filter_eq_self.mpr hmem
  have hns : ¬ sparse3 [c1, c2, '0', '0', '0'] := fun hsp =>
    third_zero_not_sparse c1 c2 hsp.2
  have hz : ([c1, c2, '0', '0', '0'] : List Char) ≠ [] := by simp
  have hlen : ¬ ((pyStrip [c1, c2, '0', '0', '0']).filter Char.isDigit).length < 2 := by
    rw [hd]; simp
  have hred : ¬ (p = Precision.three ∧
      sparse3 ((pyStrip [c1, c2, '0', '0', '0']).filter Char.isDigit)) := by
    rw [hd]; exact fun h => hns h.2
  rw [deid_mask hz hlen hred, hd]
  cases p with
  | two => rfl
  | three => rfl
  | smart =>
    unfold actual_precision pre_precision
    rw [if_neg hns]
    rfl

/-- A 3-digit mask padded with zeros, whose kept digits are not sparse,
is a fixed point of the 3-digit and smart modes. -/
theorem mask_fix_three_zero (c1 c2 c3 : Char) (h1 : c1.isDigit = true)
    (h2 : c2.isDigit = true) (h3 : c3.isDigit = true)
    (hm : [c1, c2, c3] ∉ SPARSE_ZIP_PREFIXES) (p : Precision)
    (hp : p = Precision.three ∨ p = Precision.smart) (r : List Char) :
    deidentify_zipcode [c1, c2, c3, '0', '0'] p '0' r = [c1, c2, c3, '0', '0'] := by
  have hmem : ∀ c ∈ [c1, c2, c3, '0', '0'], c.isDigit = true := by
    intro c hc
    simp only [List.mem_cons, List.not_mem_nil, or_false] at hc
    rcases hc with rfl | rfl | rfl | rfl | rfl
    · exact h1
    · exact h2
    · exact h3
    all_goals decide
  have hstrip : pyStrip [c1, c2, c3, '0', '0'] = [c1, c2, c3, '0', '0'] :=
    pyStrip_eq_self_of (fun c hc => isSpace_eq_false_of_isDigit (hmem c hc))
  have hd : (pyStrip [c1, c2, c3, '0', '0']).filter Char.isDigit =
      [c1, c2, c3, '0', '0'] := by
    rw [hstrip]; exact List.filter_eq_self.mpr hmem
  have hns : ¬ sparse3 [c1, c2, c3, '0', '0'] := fun hsp => hm hsp.2
  have hz : ([c1, c2, c3, '0', '0'] : List Char) ≠ [] := by simp
  have hlen : ¬ ((pyStrip [c1, c2, c3, '0', '0']).filter Char.isDigit).length < 2 := by
    rw [hd]; simp
  have hred : ¬ (p = Precision.three ∧
      sparse3 ((pyStrip [c1, c2, c3, '0', '0']).filter Char.isDigit)) := by
    rw [hd]; exact fun h => hns h.2
  rw [deid_mask hz hlen hred, hd]
  rcases hp with rfl | rfl
  · rfl
  · unfold actual_precision pre_precision
    rw [if_neg hns]
    rfl

/-- A 2-digit mask padded with the letter X is a fixed point of every mode. -/
theorem mask_fix_two_x (c1 c2 : Char) (h1 : c1.isDigit = true)
    (h2 : c2.isDigit = true) (p : Precision) (r : List Char) :
    deidentify_zipcode [c1, c2, 'X', 'X', 'X'] p 'X' r = [c1, c2, 'X', 'X', 'X'] := by
  have hnsp : ∀ c ∈ [c1, c2, 'X', 'X', 'X'], isSpace c = false := by
    intro c hc
    simp only [List.mem_cons, List.not_mem_nil, or_false] at hc
    rcases hc with rfl | rfl | rfl | rfl | rfl
    · exact isSpace_eq_false_of_isDigit h1
    · exact isSpace_eq_false_of_isDigit h2
    all_goals decide
  have hstrip : pyStrip [c1, c2, 'X', 'X', 'X'] = [c1, c2, 'X', 'X', 'X'] :=
    pyStrip_eq_self_of hnsp
  have hd : (pyStrip [c1, c2, 'X', 'X', 'X']).filter Char.isDigit = [c1, c2] := by
    rw [hstrip, List.filter_cons_of_pos h1, List.filter_cons_of_pos h2]
    rfl
  have hns : ¬ sparse3 [c1, c2] := by
    intro hsp
    have h31 := hsp.1
    simp only [List.length_cons, List.length_nil] at h31
    omega
  have hz : ([c1, c2, 'X', 'X', 'X'] : List Char) ≠ [] := by simp
  have hlen : ¬ ((pyStrip [c1, c2, 'X', 'X', 'X']).filter Char.isDigit).length < 2 := by
    rw [hd]; simp
  have hred : ¬ (p = Precision.three ∧
      sparse3 ((pyStrip [c1, c2, 'X', 'X', 'X']).filter Char.isDigit)) := by
    rw [hd]; exact fun h => hns h.2
  rw [deid_mask hz hlen hred, hd]
  cases p with
  | two => rfl
  | three => rfl
  | smart =>
    unfold actual_precision pre_precision
    rw [if_neg hns]
    rfl

/-- A 3-digit mask padded with the letter X, whose kept digits are not
sparse, is a fixed point of the 3-digit and smart modes. -/
theorem mask_fix_three_x (c1 c2 c3 : Char) (h1 : c1.isDigit = true)
    (h2 : c2.isDigit = true) (h3 : c3.isDigit = true)
    (hm : [c1, c2, c3] ∉ SPARSE_ZIP_PREFIXES) (p : Precision)
    (hp : p = Precision.three ∨ p = Precision.smart) (r : List Char) :
    deidentify_zipcode [c1, c2, c3, 'X', 'X'] p 'X' r = [c1, c2, c3, 'X', 'X'] := by
  have hnsp : ∀ c ∈ [c1, c2, c3, 'X', 'X'], isSpace c = false := by
    intro c hc
    simp only [List.mem_cons, List.not_mem_nil, or_false] at hc
    rcases hc with rfl | rfl | rfl | rfl | rfl
    · exact isSpace_eq_false_of_isDigit h1
    · exact isSpace_eq_false_of_isDigit h2
    · exact isSpace_eq_false_of_isDigit h3
    all_goals decide
  have hstrip : pyStrip [c1, c2, c3, 'X', 'X'] = [c1, c2, c3, 'X', 'X'] :=
    pyStrip_eq_self_of hnsp
  have hd : (pyStrip [c1, c2, c3, 'X', 'X']).filter Char.isDigit = [c1, c2, c3] := by
    rw [hstrip, List.filter_cons_of_pos h1, List.filter_cons_of_pos h2,
      List.filter_cons_of_pos h3]
    rfl
  have hns : ¬ sparse3 [c1, c2, c3] := fun hsp => hm hsp.2
  have hz : ([c1, c2, c3, 'X', 'X'] : List Char) ≠ [] := by simp
  have hlen : ¬ ((pyStrip [c1, c2, c3, 'X', 'X']).filter Char.isDigit).length < 2 := by
    rw [hd]; simp
  have hred : ¬ (p = Precision.three ∧
      sparse3 ((pyStrip [c1, c2, c3, 'X', 'X']).filter Char.isDigit)) := by
    rw [hd]; exact fun h => hns h.2
  rw [deid_mask hz hlen hred, hd]
  rcases hp with rfl | rfl
  · rfl
  · unfold actual_precision pre_precision
    rw [if_neg hns]
    rfl

/-- Shape of a list with at least two elements. -/
theorem exists_cons_cons {l : List Char} (h : 2 ≤ l.length) :
    ∃ a b t, l = a :: b :: t := by
  cases l with
  | nil => simp at h
  | cons a t =>
    cases t with
    | nil => simp at h
    | cons b t2 => exact ⟨a, b, t2, rfl⟩

theorem actual_two {d : List Char} (h : 2 ≤ d.length) :
    actual_precision Precision.two d = 2 := by
  simp only [actual_precision, pre_precision]
  rw [if_neg (by omega)]

theorem actual_three_long {d : List Char} (h : 3 ≤ d.length) :
    actual_precision Precision.three d = 3 := by
  simp only [actual_precision, pre_precision]
  rw [if_neg (by omega)]

theorem actual_three_short {d : List Char} (h : d.length = 2) :
    actual_precision Precision.three d = 2 := by
  simp only [actual_precision, pre_precision]
  rw [if_pos (by omega), h]

theorem actual_smart_sparse {d : List Char} (h : sparse3 d) :
    actual_precision Precision.smart d = 2 := by
  have h3 := h.1
  simp only [actual_precision, pre_precision]
  rw [if_pos h, if_neg (by omega)]

theorem actual_smart_plain_long {d : List Char} (hns : ¬ sparse3 d)
    (h : 3 ≤ d.length) : actual_precision Precision.smart d = 3 := by
  simp only [actual_precision, pre_precision]
  rw [if_neg hns, if_neg (by omega)]

theorem actual_smart_plain_short {d : List Char} (hns : ¬ sparse3 d)
    (h : d.length = 2) : actual_precision Precision.smart d = 2 := by
  simp only [actual_precision, pre_precision]
  rw [if_neg hns, if_pos (by omega), h]

/-- The masked value produced by the masking branch is a fixed point of
the same configuration, for fill characters `'0'` and `'X'`. -/
theorem mask_fix {p : Precision} {d : List Char} (f : Char) (r : List Char)
    (hdig : ∀ c ∈ d, c.isDigit = true) (h2 : 2 ≤ d.length)
    (hf : f = '0' ∨ f = 'X')
    (hnr : ¬ (p = Precision.three ∧ sparse3 d)) :
    deidentify_zipcode (maskZip d (actual_precision p d) f) p f r =
      maskZip d (actual_precision p d) f := by
  obtain ⟨c1, c2, t, rfl⟩ := exists_cons_cons h2
  have h1 : c1.isDigit = true := hdig c1 (by simp)
  have h2c : c2.isDigit = true := hdig c2 (by simp)
  -- case the effective precision is 2: the mask is `[c1, c2, f, f, f]`
  have ap2 : actual_precision p (c1 :: c2 :: t) = 2 →
      deidentify_zipcode (maskZip (c1 :: c2 :: t) (actual_precision p (c1 :: c2 :: t)) f) p f r =
        maskZip (c1 :: c2 :: t) (actual_precision p (c1 :: c2 :: t)) f := by
    intro hq
    rw [hq]
    have hm : maskZip (c1 :: c2 :: t) 2 f = [c1, c2, f, f, f] := rfl
    rw [hm]
    rcases hf with rfl | rfl
    · exact mask_fix_two_zero c1 c2 h1 h2c p r
    · exact mask_fix_two_x c1 c2 h1 h2c p r
  by_cases h3 : 3 ≤ (c1 :: c2 :: t).length
  · -- at least three digits available
    obtain ⟨c3, t', rfl⟩ : ∃ c3 t', t = c3 :: t' := by
      cases t with
      | nil => simp at h3
      | cons c3 t' => exact ⟨c3, t', rfl⟩
    have h3c : c3.isDigit = true := hdig c3 (by simp)
    -- case the effective precision is 3: the mask is `[c1, c2, c3, f, f]`
    have ap3 : actual_precision p (c1 :: c2 :: c3 :: t') = 3 →
        [c1, c2, c3] ∉ SPARSE_ZIP_PREFIXES → (p = Precision.three ∨ p = Precision.smart) →
        deidentify_zipcode (maskZip (c1 :: c2 :: c3 :: t')
            (actual_precision p (c1 :: c2 :: c3 :: t')) f) p f r =
          maskZip (c1 :: c2 :: c3 :: t') (actual_precision p (c1 :: c2 :: c3 :: t')) f := by
      intro hq hm hp
      rw [hq]
      have hmz : maskZip (c1 :: c2 :: c3 :: t') 3 f = [c1, c2, c3, f, f] := rfl
      rw [hmz]
      rcases hf with rfl | rfl
      · exact mask_fix_three_zero c1 c2 c3 h1 h2c h3c hm p hp r
      · exact mask_fix_three_x c1 c2 c3 h1 h2c h3c hm p hp r
    cases p with
    | two => exact ap2 (actual_two h2)
    | three =>
      have hns : ¬ sparse3 (c1 :: c2 :: c3 :: t') := fun hs => hnr ⟨rfl, hs⟩
      have hm : [c1, c2, c3] ∉ SPARSE_ZIP_PREFIXES := fun hmem => hns ⟨h3, hmem⟩
      exact ap3 (actual_three_long h3) hm (Or.inl rfl)
    | smart =>
      by_cases hs : sparse3 (c1 :: c2 :: c3 :: t')
      · exact ap2 (actual_smart_sparse hs)
      · have hm : [c1, c2, c3] ∉ SPARSE_ZIP_PREFIXES := fun hmem => hs ⟨h3, hmem⟩
        exact ap3 (actual_smart_plain_long hs h3) hm (Or.inr rfl)
  · -- exactly two digits: the requested precision is clamped to 2
    have hlen2 : (c1 :: c2 :: t).length = 2 := by
      simp only [List.length_cons] at h3 ⊢
      omega
    have hns : ¬ sparse3 (c1 :: c2 :: t) := fun hs => h3 hs.1
    cases p with
    | two => exact ap2 (actual_two h2)
    | three => exact ap2 (actual_three_short hlen2)
    | smart => exact ap2 (actual_smart_plain_short hns hlen2)

/-- Any already-stripped value with fewer than 2 digits is a fixed point. -/
theorem deid_fix_short {s : List Char} (h1 : pyStrip s = s)
    (h2 : (s.filter Char.isDigit).length < 2) (p : Precision) (f : Char)
    (r : List Char) : deidentify_zipcode s p f r = s := by
  by_cases hs : s = []
  · subst hs; rfl
  · rw [deid_short hs (by rw [h1]; exact h2) p f r]
    exact h1

theorem lookupField_cons (a b : String) (rest : List (String × String)) (k : String) :
    lookupField ((a, b) :: rest) k = if a = k then some b else lookupField rest k := rfl

theorem lookupField_updateField_ne (row : List (String × String)) {k key : String}
    (h : k ≠ key) (v : String) :
    lookupField (updateField row key v) k = lookupField row k := by
  induction row with
  | nil => rfl
  | cons kv rest ih =>
    obtain ⟨a, b⟩ := kv
    simp only [updateField, List.map_cons] at ih ⊢
    by_cases hk : a = key
    · rw [if_pos hk, lookupField_cons, lookupField_cons,
        if_neg (Ne.symm h), if_neg (hk ▸ Ne.symm h : ¬ a = k)]
      exact ih
    · rw [if_neg hk, lookupField_cons, lookupField_cons]
      by_cases hak : a = k
      · rw [if_pos hak, if_pos hak]
      · rw [if_neg hak, if_neg hak]
        exact ih

theorem lookupField_updateField_none (row : List (String × String)) (key v k : String)
    (h : lookupField row k = none) :
    lookupField (updateField row key v) k = none := by
  by_cases hk : k = key
  · subst hk
    induction row with
    | nil => rfl
    | cons kv rest ih =>
      obtain ⟨a, b⟩ := kv
      rw [lookupField_cons] at h
      by_cases hak : a = k
      · rw [if_pos hak] at h
        exact Option.noConfusion h
      · rw [if_neg hak] at h
        simp only [updateField, List.map_cons]
        rw [if_neg hak, lookupField_cons, if_neg hak]
        simp only [updateField] at ih
        exact ih h
  · rw [lookupField_updateField_ne row hk v]
    exact h

theorem processRow_lookup_ne (cols : List String) (p : Precision) (f : Char)
    (r : String) : ∀ (row : List (String × String)) (k : String), k ∉ cols →
    lookupField (processRow cols p f r row).1 k = lookupField row k := by
  induction cols with
  | nil => intro row k _; rfl
  | cons col rest ih =>
    intro row k hk
    have hkc : k ≠ col := fun e => hk (e ▸ List.mem_cons_self col rest)
    have hkr : k ∉ rest := fun e => hk (List.mem_cons_of_mem col e)
    simp only [processRow]
    cases hlv : lookupField row col with
    | none => exact ih row k hkr
    | some v =>
      simp only []
      rw [ih _ k hkr, lookupField_updateField_ne _ hkc _]

theorem processRow_lookup_none (cols : List String) (p : Precision) (f : Char)
    (r : String) : ∀ (row : List (String × String)) (k : String),
    lookupField row k = none →
    lookupField (processRow cols p f r row).1 k = none := by
  induction cols with
  | nil => intro row k h; exact h
  | cons col rest ih =>
    intro row k h
    simp only [processRow]
    cases hlv : lookupField row col with
    | none => exact ih row k h
    | some v =>
      simp only []
      exact ih _ k (lookupField_updateField_none _ _ _ _ h)

theorem getD_mem {l : List String} : ∀ {n : Nat}, n < l.length →
    ∀ (d : String), l.getD n d ∈ l := by
  induction l with
  | nil => intro n h d; simp at h
  | cons a t ih =>
    intro n h d
    cases n with
    | zero => exact List.mem_cons_self a t
    | succ m =>
      exact List.mem_cons_of_mem a (ih (by simpa using h) d)

theorem actual_precision_bounds (p : Precision) (d : List Char) :
    actual_precision p d ≤ d.length ∧ actual_precision p d ≤ 3 := by
  have hpre : pre_precision p d ≤ 3 ∧ 2 ≤ pre_precision p d := by
    cases p with
    | smart =>
      simp only [pre_precision]
      split <;> omega
    | two => simp [pre_precision]
    | three => simp [pre_precision]
  simp only [actual_precision]
  split <;> omega

/-! ## Claims -/

/-- Claim C1: for every raw value whose extracted digit string has at
least 3 digits and whose leading 3 digits are in the sparsity table,
`deidentify_zipcode` with precision `'3'` returns exactly the configured
redaction value. -/
theorem C1_fixed3_sparse_redacts (z : List Char) (f : Char) (r : List Char)
    (h : sparse3 ((pyStrip z).filter Char.isDigit)) :
    deidentify_zipcode z Precision.three f r = r := by
  have hz : z ≠ [] := by
    intro e
    subst e
    exact absurd h (by decide)
  have hlen : ¬ ((pyStrip z).filter Char.isDigit).length < 2 := by
    have := h.1
    omega
  exact deid_redact hz hlen h f r

theorem C1_witness :
    sparse3 ((pyStrip "03601".toList).filter Char.isDigit) ∧
      deidentify_zipcode "03601".toList Precision.three '0' "REDACTED_HIPAA".toList =
        "REDACTED_HIPAA".toList :=
  ⟨by decide, C1_fixed3_sparse_redacts _ _ _ (by decide)⟩

/-- Claim C2 counterexample: with precision `smart` the input `"12"` and
redaction value `"12000"` produce the output `"12000"`, which equals the
configured redaction value (refuting \"never equals redactionValue\"),
and the 3-digit prefix of `"12"` is not sparse while the output keeps only
2 digits rather than the claimed 3 (the claimed output would be `"1200"`). -/
theorem C2_counterexample :
    deidentify_zipcode "12".toList Precision.smart '0' "12000".toList = "12000".toList ∧
    ¬ sparse3 ((pyStrip "12".toList).filter Char.isDigit) ∧
    deidentify_zipcode "12".toList Precision.smart '0' "12000".toList ≠
      maskZip ((pyStrip "12".toList).filter Char.isDigit) 3 '0' := by
  refine ⟨by decide, by decide, by decide⟩

/-- Claim C2 (amended): for every input whose extracted digit string has
at least 2 digits, smart mode never takes the redaction branch: the result
is the mask keeping `k` digits padded to 5 with the fill character, where
`k = 2` when at least 3 digits are available and the 3-digit prefix is
sparse, and otherwise `k = min 3 (number of digits)`; in particular the
result does not depend on the configured redaction value. -/
theorem C2_smart_never_redacts (z : List Char) (f : Char) (r : List Char)
    (h : 2 ≤ ((pyStrip z).filter Char.isDigit).length) :
    deidentify_zipcode z Precision.smart f r =
      maskZip ((pyStrip z).filter Char.isDigit)
        (if sparse3 ((pyStrip z).filter Char.isDigit) then 2
         else min 3 ((pyStrip z).filter Char.isDigit).length) f := by
  have hz : z ≠ [] := by
    intro e
    subst e
    exact absurd h (by decide)
  have hlen : ¬ ((pyStrip z).filter Char.isDigit).length < 2 := by omega
  have hred : ¬ (Precision.smart = Precision.three ∧
      sparse3 ((pyStrip z).filter Char.isDigit)) := fun hc => Precision.noConfusion hc.1
  rw [deid_mask hz hlen hred f r]
  have hap : actual_precision Precision.smart ((pyStrip z).filter Char.isDigit) =
      (if sparse3 ((pyStrip z).filter Char.isDigit) then 2
       else min 3 ((pyStrip z).filter Char.isDigit).length) := by
    by_cases hs : sparse3 ((pyStrip z).filter Char.isDigit)
    · rw [if_pos hs, actual_smart_sparse hs]
    · rw [if_neg hs]
      by_cases h3 : 3 ≤ ((pyStrip z).filter Char.isDigit).length
      · rw [actual_smart_plain_long hs h3]
        omega
      · have hl2 : ((pyStrip z).filter Char.isDigit).length = 2 := by omega
        rw [actual_smart_plain_short hs hl2, hl2]
        omega
  rw [hap]

theorem C2_witness :
    2 ≤ ((pyStrip "03601".toList).filter Char.isDigit).length ∧
      deidentify_zipcode "03601".toList Precision.smart '0' "REDACTED_HIPAA".toList =
        maskZip ((pyStrip "03601".toList).filter Char.isDigit)
          (if sparse3 ((pyStrip "03601".toList).filter Char.isDigit) then 2
           else min 3 ((pyStrip "03601".toList).filter Char.isDigit).length) '0' :=
  ⟨by decide, C2_smart_never_redacts _ _ _ (by decide)⟩

/-- Claim C3: for every raw value with at least 3 extracted digits and a
sparse 3-digit prefix, precision `'2'` does not redact: the result is the
normal mask, the first 2 digits followed by the fill character repeated 3
times, whatever the configured redaction value is. -/
theorem C3_fixed2_sparse_masks (z : List Char) (f : Char) (r : List Char)
    (h : sparse3 ((pyStrip z).filter Char.isDigit)) :
    deidentify_zipcode z Precision.two f r =
      ((pyStrip z).filter Char.isDigit).take 2 ++ List.replicate 3 f := by
  have hz : z ≠ [] := by
    intro e
    subst e
    exact absurd h (by decide)
  have hlen : ¬ ((pyStrip z).filter Char.isDigit).length < 2 := by
    have := h.1
    omega
  have hred : ¬ (Precision.two = Precision.three ∧
      sparse3 ((pyStrip z).filter Char.isDigit)) := fun hc => Precision.noConfusion hc.1
  rw [deid_mask hz hlen hred f r, actual_two (by have := h.1; omega)]
  rfl

theorem C3_witness :
    sparse3 ((pyStrip "03645".toList).filter Char.isDigit) ∧
      deidentify_zipcode "03645".toList Precision.two 'X' "REDACTED_HIPAA".toList =
        ((pyStrip "03645".toList).filter Char.isDigit).take 2 ++ List.replicate 3 'X' :=
  ⟨by decide, C3_fixed2_sparse_masks _ _ _ (by decide)⟩

/-- Claim C4: for every input and configuration the output has exactly 5
characters, except when fewer than 2 digits were extracted (the stripped
input passes through) or when redaction fires under fixed 3-digit
precision on a sparse prefix (the output is the redaction value). -/
theorem C4_output_length (z : List Char) (p : Precision) (f : Char) (r : List Char) :
    (deidentify_zipcode z p f r).length = 5 ∨
    (((pyStrip z).filter Char.isDigit).length < 2 ∧
      deidentify_zipcode z p f r = pyStrip z) ∨
    (p = Precision.three ∧ sparse3 ((pyStrip z).filter Char.isDigit) ∧
      deidentify_zipcode z p f r = r) := by
  by_cases hz : z = []
  · subst hz
    right; left
    exact ⟨by decide, (deid_empty p f r).trans rfl⟩
  · by_cases hlen : ((pyStrip z).filter Char.isDigit).length < 2
    · right; left
      exact ⟨hlen, deid_short hz hlen p f r⟩
    · by_cases hred : p = Precision.three ∧ sparse3 ((pyStrip z).filter Char.isDigit)
      · obtain ⟨hp, hsp⟩ := hred
        subst hp
        right; right
        exact ⟨rfl, hsp, deid_redact hz hlen hsp f r⟩
      · left
        rw [deid_mask hz hlen hred f r]
        have hb := actual_precision_bounds p ((pyStrip z).filter Char.isDigit)
        simp only [maskZip, List.length_append, List.length_take, List.length_replicate]
        omega

/-- Claim C5: preprocessing is uniform across all modes: absent and empty
values pass through unchanged, the value is stripped of surrounding
whitespace and the result depends only on the stripped value, every
non-digit is removed with digit order preserved (a ZIP+4 value
contributes all nine digits), and when fewer than 2 digits remain the
stripped value is returned as-is. -/
theorem C5_preprocessing :
    (∀ p f r, deidentify_zipcode_opt none p f r = none) ∧
    (∀ p f r, deidentify_zipcode [] p f r = []) ∧
    (∀ z p f r, ((pyStrip z).filter Char.isDigit).length < 2 →
      deidentify_zipcode z p f r = pyStrip z) ∧
    (∀ z, List.Sublist ((pyStrip z).filter Char.isDigit) (pyStrip z)) ∧
    (∀ z c, c ∈ (pyStrip z).filter Char.isDigit → c.isDigit = true) ∧
    ((pyStrip " 12345-6789 ".toList).filter Char.isDigit = "123456789".toList) ∧
    (∀ z1 z2 p f r, pyStrip z1 = pyStrip z2 →
      deidentify_zipcode z1 p f r = deidentify_zipcode z2 p f r) := by
  refine ⟨fun p f r => rfl, fun p f r => rfl, ?_, ?_, ?_, by decide, ?_⟩
  · intro z p f r h
    by_cases hz : z = []
    · subst hz
      exact (deid_empty p f r).trans rfl
    · exact deid_short hz h p f r
  · intro z
    exact List.filter_sublist _
  · intro z c hc
    exact (List.mem_filter.mp hc).2
  · intro z1 z2 p f r h
    by_cases h1 : z1 = []
    · subst h1
      by_cases h2 : z2 = []
      · subst h2; rfl
      · have hstrip : pyStrip z2 = [] := by rw [← h]; rfl
        rw [deid_empty, deid_short h2 (by rw [hstrip]; decide) p f r, hstrip]
    · by_cases h2 : z2 = []
      · subst h2
        have hstrip : pyStrip z1 = [] := by rw [h]; rfl
        rw [deid_empty, deid_short h1 (by rw [hstrip]; decide) p f r, hstrip]
      · unfold deidentify_zipcode
        rw [if_neg h1, if_neg h2, h]

theorem C5_witness :
    ((pyStrip " 1A ".toList).filter Char.isDigit).length < 2 ∧
      deidentify_zipcode " 1A ".toList Precision.three '0' [] = pyStrip " 1A ".toList :=
  ⟨by decide, C5_preprocessing.2.2.1 " 1A ".toList Precision.three '0' [] (by decide)⟩

/-- Claim C6: column-resolution rules: an explicit integer is strictly a
positional index; an exact header-name match takes priority over numeric
interpretation (a reference "2" naming an existing header "2" resolves by
name); an all-digit string falls back to a positional index; out-of-range
indices and unmatched names produce a non-fatal warning and the reference
is skipped while resolution continues with the remaining references. -/
theorem C6_resolution_rules :
    (∀ (fns : List String) (i : Int), resolveColumns [ColRef.idx i] fns =
        if 0 ≤ i ∧ i.toNat < fns.length then ([fns.getD i.toNat ""], [])
        else ([], [Warning.indexOutOfRange i ((fns.length : Int) - 1)])) ∧
    (∀ (fns : List String) (s : String), s ∈ fns →
        resolveColumns [ColRef.name s] fns = ([s], [])) ∧
    (∀ (fns : List String) (s : String), s ∉ fns → pyIsDigit s = true →
        resolveColumns [ColRef.name s] fns =
          if pyInt s < fns.length then ([fns.getD (pyInt s) ""], [])
          else ([], [Warning.indexOutOfRange (pyInt s) ((fns.length : Int) - 1)])) ∧
    (∀ (fns : List String) (s : String), s ∉ fns → pyIsDigit s = false →
        resolveColumns [ColRef.name s] fns = ([], [Warning.columnNotFound s])) ∧
    (resolveColumns [ColRef.name "2"] ["a", "2", "c"] = (["2"], [])) ∧
    (∀ (fns : List String) (c : ColRef) (rest : List ColRef),
        resolveColumns (c :: rest) fns =
          ((resolveColumns [c] fns).1 ++ (resolveColumns rest fns).1,
           (resolveColumns [c] fns).2 ++ (resolveColumns rest fns).2)) := by
  refine ⟨?_, ?_, ?_, ?_, by decide, ?_⟩
  · intro fns i
    by_cases hc : 0 ≤ i ∧ i.toNat < fns.length
    · rw [if_pos hc]
      simp only [resolveColumns]
      rw [if_pos hc]
      simp
    · rw [if_neg hc]
      simp only [resolveColumns]
      rw [if_neg hc]
      simp
  · intro fns s hs
    simp only [resolveColumns]
    rw [if_pos hs]
    simp
  · intro fns s hs hd
    simp only [resolveColumns]
    rw [if_neg hs, if_pos hd]
    by_cases hr : pyInt s < fns.length
    · rw [if_pos hr]
      simp
    · rw [if_neg hr]
      simp
  · intro fns s hs hd
    simp only [resolveColumns]
    rw [if_neg hs, if_neg (by simp [hd])]
    simp
  · intro fns c rest
    simp only [resolveColumns, List.append_nil]

theorem C6_witness :
    resolveColumns [ColRef.name "zipcode"] ["id", "zipcode"] = (["zipcode"], []) :=
  C6_resolution_rules.2.1 ["id", "zipcode"] "zipcode" (by decide)

/-- Claim C7: when no requested reference resolves against the headers,
`deidentify_csv` fails with the fatal configuration error (the raise in
the source happens before the output file is opened, so the error result
models a run that produced no output artifact). -/
theorem C7_empty_resolution_fatal (fns : List String)
    (rows : List (List (String × String))) (refs : List ColRef) (p : Precision)
    (f : Char) (r : String) (hne : fns ≠ [])
    (h : (resolveColumns refs fns).1 = []) :
    deidentify_csv fns rows refs p f r =
      Except.error "No valid ZIP code columns found" := by
  simp only [deidentify_csv]
  rw [if_neg (by simpa using hne), if_pos (by simp [h])]

theorem C7_witness :
    (["id"] : List String) ≠ [] ∧
      (resolveColumns [ColRef.name "zipcode"] ["id"]).1 = [] ∧
      deidentify_csv ["id"] [] [ColRef.name "zipcode"] Precision.smart '0' "R" =
        Except.error "No valid ZIP code columns found" :=
  ⟨by decide, by decide,
    C7_empty_resolution_fatal _ _ _ _ _ _ (by decide) (by decide)⟩

/-- Claim C8: on a successful run every input row yields exactly one
output row in order (equal row count), the header is written unchanged in
its original order, and every field outside the resolved column set — and
every resolved column absent from a given row — is carried over verbatim. -/
theorem C8_structure_preserved (fns : List String)
    (rows : List (List (String × String))) (refs : List ColRef) (p : Precision)
    (f : Char) (r : String) (out : CsvOutput)
    (h : deidentify_csv fns rows refs p f r = Except.ok out) :
    out.fieldnames = fns ∧ out.row_count = rows.length ∧
    out.rows.length = rows.length ∧
    List.Forall₂ (fun rin rout =>
      (∀ k, k ∉ (resolveColumns refs fns).1 →
        lookupField rout k = lookupField rin k) ∧
      (∀ k, lookupField rin k = none → lookupField rout k = none))
      rows out.rows := by
  simp only [deidentify_csv] at h
  by_cases h1 : fns.isEmpty
  · rw [if_pos h1] at h
    exact Except.noConfusion h
  · rw [if_neg h1] at h
    by_cases h2 : ((resolveColumns refs fns).1).isEmpty
    · rw [if_pos h2] at h
      exact Except.noConfusion h
    · rw [if_neg h2] at h
      injection h with hout
      subst hout
      refine ⟨rfl, rfl, by simp, ?_⟩
      rw [List.map_map]
      refine List.forall₂_map_right_iff.mpr (List.forall₂_same.mpr ?_)
      intro row hrow
      exact ⟨fun k hk => processRow_lookup_ne _ p f r row k hk,
             fun k hk => processRow_lookup_none _ p f r row k hk⟩

theorem C8_witness :
    (CsvOutput.mk ["id", "zipcode"] [[("id", "1"), ("zipcode", "REDACTED_HIPAA")]]
        1 1).fieldnames = ["id", "zipcode"] ∧
      (CsvOutput.mk ["id", "zipcode"] [[("id", "1"), ("zipcode", "REDACTED_HIPAA")]]
        1 1).row_count = [[("id", "1"), ("zipcode", "03601")]].length ∧
      (CsvOutput.mk ["id", "zipcode"] [[("id", "1"), ("zipcode", "REDACTED_HIPAA")]]
        1 1).rows.length = [[("id", "1"), ("zipcode", "03601")]].length ∧
      List.Forall₂ (fun rin rout =>
        (∀ k, k ∉ (resolveColumns [ColRef.name "zipcode"] ["id", "zipcode"]).1 →
          lookupField rout k = lookupField rin k) ∧
        (∀ k, lookupField rin k = none → lookupField rout k = none))
        [[("id", "1"), ("zipcode", "03601")]]
        (CsvOutput.mk ["id", "zipcode"] [[("id", "1"), ("zipcode", "REDACTED_HIPAA")]]
          1 1).rows :=
  C8_structure_preserved ["id", "zipcode"] [[("id", "1"), ("zipcode", "03601")]]
    [ColRef.name "zipcode"] Precision.three '0' "REDACTED_HIPAA" _ (by decide)

/-- Claim C9 counterexample: requesting the same valid column twice keeps
both copies in the resolved list, so the resolved list is not
duplicate-free as claimed. -/
theorem C9_counterexample :
    ¬ (resolveColumns [ColRef.name "zipcode", ColRef.name "zipcode"]
        ["zipcode"]).1.Nodup := by
  decide

/-- Claim C9 (amended): the resolved list contains no invalid references —
every resolved entry is an actual header name, invalid references having
been skipped with a warning — but duplicate references are preserved, not
removed. -/
theorem C9_resolved_valid (refs : List ColRef) (fns : List String) :
    ∀ c ∈ (resolveColumns refs fns).1, c ∈ fns := by
  induction refs with
  | nil =>
    intro c hc
    exact absurd hc (List.not_mem_nil c)
  | cons col rest ih =>
    intro c hc
    simp only [resolveColumns] at hc
    rw [List.mem_append] at hc
    rcases hc with hc | hc
    · cases col with
      | idx i =>
        replace hc : c ∈ (if 0 ≤ i ∧ i.toNat < fns.length
            then ([fns.getD i.toNat ""], ([] : List Warning))
            else ([], [Warning.indexOutOfRange i ((fns.length : Int) - 1)])).1 := hc
        by_cases hcond : 0 ≤ i ∧ i.toNat < fns.length
        · rw [if_pos hcond] at hc
          simp only [List.mem_singleton] at hc
          subst hc
          exact getD_mem hcond.2 ""
        · rw [if_neg hcond] at hc
          exact absurd hc (List.not_mem_nil c)
      | name s =>
        replace hc : c ∈ (if s ∈ fns then ([s], ([] : List Warning))
            else if pyIsDigit s = true then
              if pyInt s < fns.length then ([fns.getD (pyInt s) ""], [])
              else ([], [Warning.indexOutOfRange (pyInt s) ((fns.length : Int) - 1)])
            else ([], [Warning.columnNotFound s])).1 := hc
        by_cases hmem : s ∈ fns
        · rw [if_pos hmem] at hc
          simp only [List.mem_singleton] at hc
          subst hc
          exact hmem
        · rw [if_neg hmem] at hc
          by_cases hdig : pyIsDigit s = true
          · rw [if_pos hdig] at hc
            by_cases hr : pyInt s < fns.length
            · rw [if_pos hr] at hc
              simp only [List.mem_singleton] at hc
              subst hc
              exact getD_mem hr ""
            · rw [if_neg hr] at hc
              exact absurd hc (List.not_mem_nil c)
          · rw [if_neg hdig] at hc
            exact absurd hc (List.not_mem_nil c)
    · exact ih c hc

theorem C9_witness : "zipcode" ∈ ["id", "zipcode"] :=
  C9_resolved_valid [ColRef.name "zipcode"] ["id", "zipcode"] "zipcode" (by decide)

/-- Claim C10 counterexample: with precision '3', fill '0' and redaction
value "12345", the input "03601" is redacted to "12345", and applying the
function to that output masks it further to "12300": the function is not
idempotent for every redaction value. -/
theorem C10_counterexample :
    deidentify_zipcode
        (deidentify_zipcode "03601".toList Precision.three '0' "12345".toList)
        Precision.three '0' "12345".toList ≠
      deidentify_zipcode "03601".toList Precision.three '0' "12345".toList := by
  decide

/-- Claim C10 (amended): for every input, every precision mode, both fill
characters '0' and 'X', and every redaction value that is itself stable
under preprocessing — already stripped and holding fewer than 2 digits,
as the default "REDACTED_HIPAA" is — applying the function to its own
output returns that output unchanged. -/
theorem C10_idempotent (z : List Char) (p : Precision) (f : Char) (r : List Char)
    (hf : f = '0' ∨ f = 'X') (hr1 : pyStrip r = r)
    (hr2 : (r.filter Char.isDigit).length < 2) :
    deidentify_zipcode (deidentify_zipcode z p f r) p f r =
      deidentify_zipcode z p f r := by
  by_cases hz : z = []
  · subst hz
    rfl
  · by_cases hlen : ((pyStrip z).filter Char.isDigit).length < 2
    · rw [deid_short hz hlen p f r]
      exact deid_fix_short (pyStrip_idem z) hlen p f r
    · by_cases hred : p = Precision.three ∧ sparse3 ((pyStrip z).filter Char.isDigit)
      · obtain ⟨hp, hsp⟩ := hred
        subst hp
        rw [deid_redact hz hlen hsp f r]
        exact deid_fix_short hr1 hr2 Precision.three f r
      · rw [deid_mask hz hlen hred f r]
        exact mask_fix f r (fun c hc => (List.mem_filter.mp hc).2) (by omega) hf hred

theorem C10_witness :
    deidentify_zipcode
        (deidentify_zipcode "03601".toList Precision.smart 'X' "REDACTED_HIPAA".toList)
        Precision.smart 'X' "REDACTED_HIPAA".toList =
      deidentify_zipcode "03601".toList Precision.smart 'X' "REDACTED_HIPAA".toList :=
  C10_idempotent _ _ _ _ (Or.inr rfl) (by decide) (by decide)
